import Mathlib

/-!
Verification of `scripts/loadtest/inference-traffic.py` (kubenetlabs/ngc).

The script is a load generator: concurrent workers POST a fixed payload to an
inference gateway until a deadline, aggregate results in a shared `Stats`
object, and the process exits 0 or 1 depending on the final error rate.

Shallow embedding conventions:
- Wall-clock times and latencies are rationals (`ℚ`); `time.time()` reads are
  passed explicitly as a `now` argument to the accessors that perform them.
- Python's `float("inf")` initial value of `min_latency` is modelled as `⊤`
  in `WithTop ℚ`.
- The outcome of one `urllib.request.urlopen` call is an external event,
  modelled by the inductive `UrlopenBehavior`: the call either returns a
  response, raises `urllib.error.HTTPError`, or raises some other exception.
  `send_request` is a total function of that event, mirroring its
  try/except structure; totality models "never propagates a failure".
- A history of aggregator updates is a `List StatsOp` applied in order.
-/

/-- The mutable counter record of the script (`class Stats`), with
`ok`, `err`, `total_latency`, `min_latency`, `max_latency`, `start_time`. -/
structure Stats where
  ok : ℕ
  err : ℕ
  total_latency : ℚ
  min_latency : WithTop ℚ
  max_latency : ℚ
  start_time : ℚ
  deriving Repr, DecidableEq

namespace Stats

/-- `Stats.__init__`: zero counters, `min_latency = float("inf")`,
`max_latency = 0.0`, `start_time = time.time()` (the clock reading `t`
is passed in explicitly). -/
def init (t : ℚ) : Stats :=
  { ok := 0
    err := 0
    total_latency := 0
    min_latency := ⊤
    max_latency := 0
    start_time := t }

/-- `Stats.record_success(latency)`. -/
def record_success (s : Stats) (latency : ℚ) : Stats :=
  { s with
    ok := s.ok + 1
    total_latency := s.total_latency + latency
    min_latency := min s.min_latency (latency : WithTop ℚ)
    max_latency := max s.max_latency latency }

/-- `Stats.record_error()`. -/
def record_error (s : Stats) : Stats :=
  { s with err := s.err + 1 }

/-- `Stats.total` property: `self.ok + self.err`. -/
def total (s : Stats) : ℕ :=
  s.ok + s.err

/-- `Stats.elapsed` property: `time.time() - self.start_time`; the clock
reading at the moment of the call is the argument `now`. -/
def elapsed (s : Stats) (now : ℚ) : ℚ :=
  now - s.start_time

/-- `Stats.rps` property: `self.total / e if e > 0 else 0`. -/
def rps (s : Stats) (now : ℚ) : ℚ :=
  let e := s.elapsed now
  if e > 0 then (s.total : ℚ) / e else 0

/-- `Stats.avg_latency` property:
`(self.total_latency / self.ok * 1000) if self.ok > 0 else 0`. -/
def avg_latency (s : Stats) : ℚ :=
  if s.ok > 0 then s.total_latency / (s.ok : ℚ) * 1000 else 0

/-- `Stats.summary()` reports `ok`, `err`, `rps` and `avg_latency`
(string formatting dropped, the four reported quantities kept). -/
def summary (s : Stats) (now : ℚ) : ℕ × ℕ × ℚ × ℚ :=
  (s.ok, s.err, s.rps now, s.avg_latency)

end Stats

/-- One aggregator update: a `record_success(latency)` or a
`record_error()` call. -/
inductive StatsOp where
  | succ (latency : ℚ)
  | err
  deriving Repr, DecidableEq

/-- Apply a history of record calls to a `Stats` value, in order. -/
def applyOps (s : Stats) (ops : List StatsOp) : Stats :=
  ops.foldl
    (fun acc op =>
      match op with
      | StatsOp.succ l => acc.record_success l
      | StatsOp.err => acc.record_error)
    s

/-- The latencies passed to `record_success` in a history, in order. -/
def latencies (ops : List StatsOp) : List ℚ :=
  ops.filterMap
    (fun op =>
      match op with
      | StatsOp.succ l => some l
      | StatsOp.err => none)

/-- Outcome of one `urllib.request.urlopen` call, as seen by
`send_request`: a response object (with its status, here including the
time at which the body finished reading), an `urllib.error.HTTPError`
with its `code`, or any other exception.  `elapsed` is the value of
`time.time() - t0` at the point the outcome is observed. -/
inductive UrlopenBehavior where
  | ok (status : ℕ) (elapsed : ℚ)
  | httpError (code : ℕ) (elapsed : ℚ)
  | raiseOther (elapsed : ℚ)
  deriving Repr, DecidableEq

/-- `send_request`: on a response return `(resp.status, time.time() - t0)`;
on `urllib.error.HTTPError as e` return `(e.code, time.time() - t0)`; on any
other `Exception` return `(0, time.time() - t0)`.  Totality of this function
is the embedding of "never raises/propagates to the caller". -/
def send_request (b : UrlopenBehavior) : ℕ × ℚ :=
  match b with
  | UrlopenBehavior.ok status t => (status, t)
  | UrlopenBehavior.httpError code t => (code, t)
  | UrlopenBehavior.raiseOther t => (0, t)

/-- One iteration of the worker loop body, after `send_request` returned
`(status, latency)`: `if 200 <= status < 300: stats.record_success(latency)
else: stats.record_error()`. -/
def workerStep (s : Stats) (result : ℕ × ℚ) : Stats :=
  let status := result.1
  let latency := result.2
  if 200 ≤ status ∧ status < 300 then s.record_success latency
  else s.record_error

/-- Exit status computed at the end of `run_load_test`:
`0 if stats.err < stats.total * 0.1 else 1`. -/
def exit_code (s : Stats) : ℕ :=
  if (s.err : ℚ) < (s.total : ℚ) * (1 / 10) then 0 else 1

/-- Result of `run_load_test`, keeping its observable pieces: whether the
warm-up branch printed the FAILED/WARNING lines, the final `Stats`, and
the returned exit status. -/
structure RunResult where
  warmupTimeout : ℕ
  warmupWarned : Bool
  stats : Stats
  exit_status : ℕ
  deriving Repr, DecidableEq

/-- `run_load_test`: performs the single warm-up `send_request` (printing
a warning when its status is outside `[200, 300)`), then creates `Stats()`
at clock reading `t`, runs the workers — whose request results, in the
order their updates hit the aggregator, are `mainResults` — and returns
the exit status.  The warm-up result is consumed only by the warning
branch. -/
def run_load_test (warmup : UrlopenBehavior) (mainResults : List (ℕ × ℚ))
    (t : ℚ) : RunResult :=
  let w := send_request warmup
  let warned : Bool := ¬(200 ≤ w.1 ∧ w.1 < 300)
  let s := mainResults.foldl workerStep (Stats.init t)
  { warmupTimeout := 60
    warmupWarned := warned
    stats := s
    exit_status := exit_code s }

/- ### Helper lemmas -/

theorem applyOps_nil (s : Stats) : applyOps s [] = s := rfl

theorem applyOps_cons (s : Stats) (op : StatsOp) (ops : List StatsOp) :
    applyOps s (op :: ops) =
      applyOps
        (match op with
         | StatsOp.succ l => s.record_success l
         | StatsOp.err => s.record_error) ops := rfl

theorem applyOps_ok_add_err (s : Stats) (ops : List StatsOp) :
    (applyOps s ops).ok + (applyOps s ops).err = s.ok + s.err + ops.length := by
  induction ops generalizing s with
  | nil => simp [applyOps_nil]
  | cons op ops ih =>
    cases op with
    | succ l =>
      rw [applyOps_cons]
      simp only [ih, Stats.record_success, List.length_cons]
      omega
    | err =>
      rw [applyOps_cons]
      simp only [ih, Stats.record_error, List.length_cons]
      omega

/- ### Claims -/

/-- C4: starting from initialization, after any sequence of
`record_success`/`record_error` calls, `ok + err` equals the number of
record operations performed, and the `total` accessor returns exactly
that count. -/
theorem c4_total_counts_operations (t : ℚ) (ops : List StatsOp) :
    (applyOps (Stats.init t) ops).total = ops.length ∧
      (applyOps (Stats.init t) ops).ok + (applyOps (Stats.init t) ops).err =
        ops.length := by
  have h := applyOps_ok_add_err (Stats.init t) ops
  simp only [Stats.init] at h
  exact ⟨by simpa [Stats.total] using h, by simpa using h⟩

/-- C1: the exit status is 0 exactly when `err < total * 0.1` (error rate
strictly below 10%, i.e. `10 * err < total` over the integer counters), and
in particular the zero-request run (`total = 0`) exits with status 1. -/
theorem c1_exit_status (s : Stats) :
    (exit_code s = 0 ↔ 10 * s.err < s.total) ∧
      (exit_code s = 0 ∨ exit_code s = 1) ∧
      (s.total = 0 → exit_code s = 1) := by
  have key : ((s.err : ℚ) < (s.total : ℚ) * (1 / 10)) ↔ 10 * s.err < s.total := by
    constructor
    · intro h
      have h10 : ((10 * s.err : ℕ) : ℚ) < ((s.total : ℕ) : ℚ) := by
        push_cast
        linarith
      exact_mod_cast h10
    · intro h
      have h10 : ((10 * s.err : ℕ) : ℚ) < ((s.total : ℕ) : ℚ) := by
        exact_mod_cast h
      push_cast at h10
      linarith
  refine ⟨?_, ?_, ?_⟩
  · unfold exit_code
    by_cases h : (s.err : ℚ) < (s.total : ℚ) * (1 / 10)
    · rw [if_pos h]
      exact iff_of_true rfl (key.mp h)
    · rw [if_neg h]
      exact iff_of_false (by omega) (fun hc => h (key.mpr hc))
  · unfold exit_code
    by_cases h : (s.err : ℚ) < (s.total : ℚ) * (1 / 10)
    · exact Or.inl (by rw [if_pos h])
    · exact Or.inr (by rw [if_neg h])
  · intro h0
    have herr : ¬ ((s.err : ℚ) < (s.total : ℚ) * (1 / 10)) := by
      intro hlt
      rw [h0] at hlt
      norm_num at hlt
      have hnn : (0 : ℚ) ≤ (s.err : ℚ) := Nat.cast_nonneg _
      linarith
    unfold exit_code
    rw [if_neg herr]

/-- C1 witness: a `Stats` with zero requests exits with status 1. -/
theorem c1_exit_status_witness : exit_code (Stats.init 0) = 1 :=
  (c1_exit_status (Stats.init 0)).2.2 rfl

/-- C2: `send_request` is a total function of the urlopen outcome (no
failure propagates to the caller): any non-HTTPError exception yields the
sentinel pair `(0, elapsed)`, an `HTTPError` (4xx/5xx) yields the server's
actual code with the elapsed time, and a normal response yields its
status. -/
theorem c2_send_request_absorbs (code status : ℕ) (t : ℚ) :
    send_request (UrlopenBehavior.raiseOther t) = (0, t) ∧
      send_request (UrlopenBehavior.httpError code t) = (code, t) ∧
      send_request (UrlopenBehavior.ok status t) = (status, t) :=
  ⟨rfl, rfl, rfl⟩

/-- C3: the worker records a success with the observed latency exactly when
`200 ≤ status < 300`, and records an error (leaving the success counters
untouched) otherwise — covering HTTP errors and the transport sentinel 0
alike. -/
theorem c3_worker_classification (s : Stats) (status : ℕ) (latency : ℚ) :
    (workerStep s (status, latency)).ok =
        s.ok + (if 200 ≤ status ∧ status < 300 then 1 else 0) ∧
      (workerStep s (status, latency)).err =
        s.err + (if 200 ≤ status ∧ status < 300 then 0 else 1) ∧
      (workerStep s (status, latency)).total_latency =
        s.total_latency + (if 200 ≤ status ∧ status < 300 then latency else 0) ∧
      ((200 ≤ status ∧ status < 300) →
        workerStep s (status, latency) = s.record_success latency) ∧
      (¬ (200 ≤ status ∧ status < 300) →
        workerStep s (status, latency) = s.record_error) := by
  by_cases h : 200 ≤ status ∧ status < 300 <;>
    simp [workerStep, h, Stats.record_success, Stats.record_error]

/-- C3 witness: a 200 response is recorded as a success with its latency. -/
theorem c3_worker_classification_witness :
    workerStep (Stats.init 0) (200, 1) = (Stats.init 0).record_success 1 :=
  (c3_worker_classification (Stats.init 0) 200 1).2.2.2.1 (by decide)

/-- C7: `rps` is always nonnegative, returns 0 whenever `elapsed ≤ 0`
(the division is guarded), and when `elapsed > 0` it is exactly
`total / elapsed` (stated multiplicatively). -/
theorem c7_rps_guarded (s : Stats) (now : ℚ) :
    0 ≤ s.rps now ∧
      (s.elapsed now ≤ 0 → s.rps now = 0) ∧
      (0 < s.elapsed now → s.rps now * s.elapsed now = (s.total : ℚ)) := by
  refine ⟨?_, ?_, ?_⟩
  · unfold Stats.rps
    by_cases h : s.elapsed now > 0
    · rw [if_pos h]
      exact div_nonneg (Nat.cast_nonneg _) (le_of_lt h)
    · rw [if_neg h]
  · intro h
    unfold Stats.rps
    rw [if_neg (not_lt.mpr h)]
  · intro h
    unfold Stats.rps
    rw [if_pos h]
    field_simp

/-- C7 witness: with the clock one second past `start_time` and no
requests, `rps * elapsed = total` holds concretely. -/
theorem c7_rps_guarded_witness :
    Stats.rps (Stats.init 0) 1 * Stats.elapsed (Stats.init 0) 1 =
      ((Stats.init 0).total : ℚ) :=
  (c7_rps_guarded (Stats.init 0) 1).2.2 (by norm_num [Stats.elapsed, Stats.init])

theorem latencies_nil : latencies [] = [] := rfl

theorem latencies_succ_cons (l : ℚ) (ops : List StatsOp) :
    latencies (StatsOp.succ l :: ops) = l :: latencies ops := rfl

theorem latencies_err_cons (ops : List StatsOp) :
    latencies (StatsOp.err :: ops) = latencies ops := rfl

theorem applyOps_ok (s : Stats) (ops : List StatsOp) :
    (applyOps s ops).ok = s.ok + (latencies ops).length := by
  induction ops generalizing s with
  | nil => simp [applyOps_nil, latencies_nil]
  | cons op ops ih =>
    cases op with
    | succ l =>
      rw [applyOps_cons, latencies_succ_cons]
      simp only [ih, Stats.record_success, List.length_cons]
      omega
    | err =>
      rw [applyOps_cons, latencies_err_cons]
      simp only [ih, Stats.record_error]

theorem applyOps_total_latency (s : Stats) (ops : List StatsOp) :
    (applyOps s ops).total_latency = s.total_latency + (latencies ops).sum := by
  induction ops generalizing s with
  | nil => simp [applyOps_nil, latencies_nil]
  | cons op ops ih =>
    cases op with
    | succ l =>
      rw [applyOps_cons, latencies_succ_cons]
      simp only [ih, Stats.record_success, List.sum_cons]
      ring
    | err =>
      rw [applyOps_cons, latencies_err_cons]
      simp only [ih, Stats.record_error]

/-- C5 counterexample: `elapsed` (and hence `rps` and the summary line) reads
the wall clock at call time; two calls on the same unmutated `Stats`, made
at clock readings 1 and 2, return different values, so the accessors are not
idempotent across calls as a group. -/
theorem c5_elapsed_two_calls_differ :
    Stats.elapsed (Stats.init 0) 1 ≠ Stats.elapsed (Stats.init 0) 2 := by
  norm_num [Stats.elapsed, Stats.init]

/-- C5 amended: the accessors are deterministic in the state and the clock:
two calls of `elapsed` on an unmutated `Stats` agree exactly when the clock
reads the same instant, and at any single instant `rps` and the summary
(and the purely state-dependent `avg_latency`, `total`) repeat identically. -/
theorem c5_accessors_deterministic (s : Stats) (n₁ n₂ : ℚ) :
    (s.elapsed n₁ = s.elapsed n₂ ↔ n₁ = n₂) ∧
      (n₁ = n₂ →
        s.rps n₁ = s.rps n₂ ∧ s.summary n₁ = s.summary n₂) := by
  refine ⟨?_, ?_⟩
  · unfold Stats.elapsed
    constructor
    · intro h
      linarith
    · intro h
      rw [h]
  · rintro rfl
    exact ⟨rfl, rfl⟩

/-- C5 amended witness: at one fixed instant the accessors repeat. -/
theorem c5_accessors_deterministic_witness :
    Stats.rps (Stats.init 0) 3 = Stats.rps (Stats.init 0) 3 ∧
      Stats.summary (Stats.init 0) 3 = Stats.summary (Stats.init 0) 3 :=
  (c5_accessors_deterministic (Stats.init 0) 3 3).2 rfl

/-- C6: after any history of record calls from initialization, `avg_latency`
is 0 when no success was recorded, and otherwise is the arithmetic mean of
the latencies passed to `record_success`, converted to milliseconds. -/
theorem c6_avg_latency_mean (t : ℚ) (ops : List StatsOp) :
    ((applyOps (Stats.init t) ops).ok = 0 →
        (applyOps (Stats.init t) ops).avg_latency = 0) ∧
      (0 < (applyOps (Stats.init t) ops).ok →
        (applyOps (Stats.init t) ops).avg_latency =
          (latencies ops).sum / ((latencies ops).length : ℚ) * 1000) := by
  have hok : (applyOps (Stats.init t) ops).ok = (latencies ops).length := by
    rw [applyOps_ok]
    simp [Stats.init]
  have hsum : (applyOps (Stats.init t) ops).total_latency = (latencies ops).sum := by
    rw [applyOps_total_latency]
    simp [Stats.init]
  constructor
  · intro h
    simp [Stats.avg_latency, h]
  · intro h
    unfold Stats.avg_latency
    rw [if_pos h, hsum, hok]

/-- C6 witness: two successes of latency 2 and 4 plus one error give an
average latency of 3000 ms, i.e. the mean of the recorded latencies. -/
theorem c6_avg_latency_mean_witness :
    (applyOps (Stats.init 0)
        [StatsOp.succ 2, StatsOp.err, StatsOp.succ 4]).avg_latency =
      (latencies [StatsOp.succ 2, StatsOp.err, StatsOp.succ 4]).sum /
        ((latencies [StatsOp.succ 2, StatsOp.err, StatsOp.succ 4]).length : ℚ) *
        1000 :=
  (c6_avg_latency_mean 0 [StatsOp.succ 2, StatsOp.err, StatsOp.succ 4]).2
    (by decide)

/-- C8: the warm-up request is issued with the extended 60-second timeout,
a failed warm-up only sets the warning and never changes the outcome (the
final `Stats` and exit status are identical for every warm-up result), and
the `Stats` object is created after the warm-up, so it reflects main-phase
results only. -/
theorem c8_warmup_isolated (w w' : UrlopenBehavior) (rs : List (ℕ × ℚ))
    (t : ℚ) :
    (run_load_test w rs t).warmupTimeout = 60 ∧
      (run_load_test w rs t).stats = (run_load_test w' rs t).stats ∧
      (run_load_test w rs t).exit_status = (run_load_test w' rs t).exit_status ∧
      (run_load_test w rs t).stats = rs.foldl workerStep (Stats.init t) ∧
      ((run_load_test w rs t).warmupWarned = true ↔
        ¬ (200 ≤ (send_request w).1 ∧ (send_request w).1 < 300)) := by
  refine ⟨rfl, rfl, rfl, rfl, ?_⟩
  simp [run_load_test]
  omega

/-- `ops` is an interleaving of the per-worker update sequences `ls`: at each
step some worker's next pending operation is applied to the shared `Stats`,
and a worker's own operations stay in order (the asyncio event loop applies
each record call atomically between await points). -/
inductive IsInterleaving : List (List StatsOp) → List StatsOp → Prop where
  | done (ls : List (List StatsOp)) :
      (∀ l ∈ ls, l = []) → IsInterleaving ls []
  | step (ls : List (List StatsOp)) (i : ℕ) (h : i < ls.length) (x : StatsOp)
      (rest : List StatsOp) (ops : List StatsOp) :
      ls.get ⟨i, h⟩ = x :: rest →
      IsInterleaving (ls.set i rest) ops →
      IsInterleaving ls (x :: ops)

theorem sum_map_length_set (ls : List (List StatsOp)) (i : ℕ)
    (h : i < ls.length) (rest : List StatsOp) :
    ((ls.set i rest).map List.length).sum + (ls.get ⟨i, h⟩).length =
      (ls.map List.length).sum + rest.length := by
  induction ls generalizing i with
  | nil => simp at h
  | cons a ls ih =>
    cases i with
    | zero =>
      simp [List.set, List.sum_cons]
      omega
    | succ i =>
      have hi : i < ls.length := by
        simpa using h
      have := ih i hi
      simp only [List.set, List.map_cons, List.sum_cons, List.get_cons_succ]
      omega

theorem IsInterleaving.length_eq {ls : List (List StatsOp)}
    {ops : List StatsOp} (h : IsInterleaving ls ops) :
    ops.length = (ls.map List.length).sum := by
  induction h with
  | done ls hl =>
    simp only [List.length_nil]
    induction ls with
    | nil => simp
    | cons a ls ih =>
      have ha : a = [] := hl a (by simp)
      have hrest : ∀ l ∈ ls, l = [] := fun l hm => hl l (by simp [hm])
      simp [ha, ih hrest]
  | step ls i hlt x rest ops hget hIl ih =>
    have hs := sum_map_length_set ls i hlt rest
    rw [hget] at hs
    simp only [List.length_cons] at hs ⊢
    omega

theorem isInterleaving_nil_cons {ls : List (List StatsOp)}
    {ops : List StatsOp} (h : IsInterleaving ls ops) :
    IsInterleaving ([] :: ls) ops := by
  induction h with
  | done ls hl =>
    refine IsInterleaving.done _ ?_
    intro l hm
    rcases List.mem_cons.mp hm with h1 | h2
    · exact h1
    · exact hl l h2
  | step ls i hlt x rest ops hget hIl ih =>
    refine IsInterleaving.step ([] :: ls) (i + 1) (by simpa using hlt) x rest ops ?_ ?_
    · simpa using hget
    · simpa [List.set] using ih

theorem isInterleaving_join (ls : List (List StatsOp)) :
    IsInterleaving ls ls.flatten := by
  induction ls with
  | nil => exact IsInterleaving.done _ (by simp)
  | cons l rest ih =>
    induction l with
    | nil =>
      simpa using isInterleaving_nil_cons ih
    | cons x xs ihx =>
      refine IsInterleaving.step ((x :: xs) :: rest) 0 (by simp) x xs
        (xs :: rest).flatten rfl ?_
      simpa [List.set] using ihx

/-- C9: for any interleaved execution of 50 workers each performing 1000
`record_success`/`record_error` calls on one shared `Stats` (each call
applied atomically by the event loop, in some global order consistent with
every worker's own order), no update is lost: the final `ok + err` is
exactly 50000. -/
theorem c9_no_lost_updates (t : ℚ) (workers : List (List StatsOp))
    (ops : List StatsOp) (hw : workers.length = 50)
    (hlen : ∀ l ∈ workers, l.length = 1000)
    (hI : IsInterleaving workers ops) :
    (applyOps (Stats.init t) ops).ok + (applyOps (Stats.init t) ops).err =
      50000 := by
  have h1 := applyOps_ok_add_err (Stats.init t) ops
  have h2 := hI.length_eq
  have h3 : (workers.map List.length).sum = 50000 := by
    have hrep : workers.map List.length = List.replicate 50 1000 := by
      refine List.eq_replicate_iff.mpr ⟨by simpa using hw, ?_⟩
      intro n hn
      rcases List.mem_map.mp hn with ⟨l, hl, rfl⟩
      exact hlen l hl
    rw [hrep]
    simp [List.sum_replicate]
  rw [show (Stats.init t).ok = 0 from rfl, show (Stats.init t).err = 0 from rfl]
    at h1
  omega

/-- C9 witness: the sequential interleaving of 50 workers that each record
1000 errors ends with `ok + err = 50000`. -/
theorem c9_no_lost_updates_witness :
    (applyOps (Stats.init 0)
          (List.replicate 50 (List.replicate 1000 StatsOp.err)).flatten).ok +
        (applyOps (Stats.init 0)
          (List.replicate 50 (List.replicate 1000 StatsOp.err)).flatten).err =
      50000 :=
  c9_no_lost_updates 0 (List.replicate 50 (List.replicate 1000 StatsOp.err)) _
    (by rw [List.length_replicate])
    (fun l hl => by rw [List.eq_of_mem_replicate hl, List.length_replicate])
    (isInterleaving_join _)

theorem applyOps_min_latency (s : Stats) (ops : List StatsOp) :
    (applyOps s ops).min_latency =
      (latencies ops).foldl (fun (m : WithTop ℚ) (x : ℚ) => min m (x : WithTop ℚ)) s.min_latency := by
  induction ops generalizing s with
  | nil => simp [applyOps_nil, latencies_nil]
  | cons op ops ih =>
    cases op with
    | succ l =>
      rw [applyOps_cons, latencies_succ_cons, List.foldl_cons]
      exact ih _
    | err =>
      rw [applyOps_cons, latencies_err_cons]
      exact ih _

theorem applyOps_max_latency (s : Stats) (ops : List StatsOp) :
    (applyOps s ops).max_latency =
      (latencies ops).foldl max s.max_latency := by
  induction ops generalizing s with
  | nil => simp [applyOps_nil, latencies_nil]
  | cons op ops ih =>
    cases op with
    | succ l =>
      rw [applyOps_cons, latencies_succ_cons, List.foldl_cons]
      exact ih _
    | err =>
      rw [applyOps_cons, latencies_err_cons]
      exact ih _

theorem foldl_min_coe (l : List ℚ) (a : WithTop ℚ) :
    l.foldl (fun (m : WithTop ℚ) (x : ℚ) => min m (x : WithTop ℚ)) a = min a l.minimum := by
  induction l generalizing a with
  | nil => simp
  | cons x l ih =>
    rw [List.foldl_cons, ih, List.minimum_cons]
    exact min_assoc _ _ _

theorem foldl_max_coe (l : List ℚ) (a : ℚ) :
    ((l.foldl max a : ℚ) : WithBot ℚ) = max (a : WithBot ℚ) l.maximum := by
  induction l generalizing a with
  | nil => simp
  | cons x l ih =>
    rw [List.foldl_cons, ih, List.maximum_cons, WithBot.coe_max]
    exact max_assoc _ _ _

/-- C10: in every state reachable from initialization, if no success was
recorded then `min_latency` is the infinity sentinel `⊤` and `max_latency`
is 0 (so `min_latency` exceeds `max_latency`); once a success was recorded,
`min_latency` is the minimum and `max_latency` the maximum of the recorded
latencies, and (latencies being nonnegative elapsed times)
`min_latency ≤ max_latency`. -/
theorem c10_min_max_invariant (t : ℚ) (ops : List StatsOp)
    (hnn : ∀ l ∈ latencies ops, (0 : ℚ) ≤ l) :
    ((applyOps (Stats.init t) ops).ok = 0 →
        (applyOps (Stats.init t) ops).min_latency = ⊤ ∧
          (applyOps (Stats.init t) ops).max_latency = 0) ∧
      (0 < (applyOps (Stats.init t) ops).ok →
        (applyOps (Stats.init t) ops).min_latency = (latencies ops).minimum ∧
          ((applyOps (Stats.init t) ops).max_latency : WithBot ℚ) =
            (latencies ops).maximum ∧
          (applyOps (Stats.init t) ops).min_latency ≤
            ((applyOps (Stats.init t) ops).max_latency : WithTop ℚ)) := by
  have hok : (applyOps (Stats.init t) ops).ok = (latencies ops).length := by
    rw [applyOps_ok]
    simp [Stats.init]
  have hmin : (applyOps (Stats.init t) ops).min_latency =
      (latencies ops).minimum := by
    rw [applyOps_min_latency, show (Stats.init t).min_latency = ⊤ from rfl,
      foldl_min_coe]
    exact min_eq_right le_top
  have hmax : ((applyOps (Stats.init t) ops).max_latency : WithBot ℚ) =
      max ((0 : ℚ) : WithBot ℚ) (latencies ops).maximum := by
    rw [applyOps_max_latency, show (Stats.init t).max_latency = 0 from rfl,
      foldl_max_coe]
  constructor
  · intro h
    have hemp : latencies ops = [] := by
      rw [hok] at h
      exact List.length_eq_zero.mp h
    constructor
    · rw [hmin, hemp]
      simp
    · rw [applyOps_max_latency, hemp]
      rfl
  · intro h
    have hne : latencies ops ≠ [] := by
      intro hemp
      rw [hok, hemp] at h
      simp at h
    obtain ⟨m, hm⟩ : ∃ m : ℚ, (latencies ops).maximum = (m : WithBot ℚ) := by
      cases hmx : (latencies ops).maximum with
      | bot => exact absurd (List.maximum_eq_bot.mp hmx) hne
      | coe m => exact ⟨m, rfl⟩
    have hmem : m ∈ latencies ops := List.maximum_mem hm
    have hm0 : (0 : ℚ) ≤ m := hnn m hmem
    have hmaxm : ((applyOps (Stats.init t) ops).max_latency : WithBot ℚ) =
        (latencies ops).maximum := by
      rw [hmax, hm, ← WithBot.coe_max, max_eq_right hm0]
    refine ⟨hmin, hmaxm, ?_⟩
    have hmaxq : (applyOps (Stats.init t) ops).max_latency = m := by
      have := hmaxm.trans hm
      exact_mod_cast this
    rw [hmin, hmaxq]
    exact List.minimum_le_of_mem' hmem

/-- C10 witness: after successes with latencies 2 and 1 and one error,
`min_latency` is 1, `max_latency` is 2, and the minimum is at most the
maximum. -/
theorem c10_min_max_invariant_witness :
    (applyOps (Stats.init 0)
          [StatsOp.succ 2, StatsOp.err, StatsOp.succ 1]).min_latency =
        (latencies [StatsOp.succ 2, StatsOp.err, StatsOp.succ 1]).minimum ∧
      ((applyOps (Stats.init 0)
          [StatsOp.succ 2, StatsOp.err, StatsOp.succ 1]).max_latency :
            WithBot ℚ) =
        (latencies [StatsOp.succ 2, StatsOp.err, StatsOp.succ 1]).maximum ∧
      (applyOps (Stats.init 0)
          [StatsOp.succ 2, StatsOp.err, StatsOp.succ 1]).min_latency ≤
        ((applyOps (Stats.init 0)
          [StatsOp.succ 2, StatsOp.err, StatsOp.succ 1]).max_latency :
            WithTop ℚ) :=
  (c10_min_max_invariant 0 [StatsOp.succ 2, StatsOp.err, StatsOp.succ 1]
      (by decide)).2
    (by decide)
